import Mathlib

/-!
# Verification of the ozz-animation runtime `Skeleton` data structure

Shallow embedding of `src/include/ozz/animation/runtime/skeleton.h`
(class `ozz::animation::Skeleton`), together with spec-modelled
definitions for the parts of the repository that only appear in this
header as declarations (the `SkeletonBuilder`, and the bodies of
`Skeleton::Save` / `Skeleton::Load`).

Machine integers are modelled as `Nat` with explicit `% 2^w` where the
C++ bit-fields truncate.
-/

namespace Ozz

/-! ## Constants (enum `Skeleton::Constants`, skeleton.h lines 57-78) -/

/-- `kMaxJointsNumBits = 10`: number of bits used to store a joint index. -/
def kMaxJointsNumBits : Nat := 10

/-- `kMaxJoints = (1 << kMaxJointsNumBits) - 1`: maximum number of joints;
reserves one index (the last) for the `kNoParentIndex` value. -/
def kMaxJoints : Nat := (1 <<< kMaxJointsNumBits) - 1

/-- `kMaxSoAJoints = (kMaxJoints + 3) / 4`: maximum number of SoA elements
required to store the maximum number of joints. -/
def kMaxSoAJoints : Nat := (kMaxJoints + 3) / 4

/-- `kNoParentIndex = kMaxJoints`: the index stored as the parent of a root
joint (which has no parent in fact). -/
def kNoParentIndex : Nat := kMaxJoints

/-! ## Per-joint properties (struct `Skeleton::JointProperties`, lines 98-104)

The C++ struct packs, in one `uint16_t` allocation unit,
`uint16_t parent : 10` (the parent's index, `kNoParentIndex` for a root)
and `uint16_t is_leaf : 1` (1 for a leaf, 0 for a branch). -/

/-- A joint hierarchy link: the unpacked view of the two bit-fields. -/
structure JointProperties where
  /-- Parent's index, `kNoParentIndex` for the root.  Stored in a 10-bit
  field, so only values `< 2 ^ kMaxJointsNumBits` are representable. -/
  parent : Nat
  /-- `true` for a leaf, `false` for a branch. -/
  is_leaf : Bool
  deriving DecidableEq, Repr

/-- The 16-bit packed representation of a `JointProperties` value:
`parent` occupies bits 0-9 and `is_leaf` occupies bit 10, matching the
declaration order of the two bit-fields in their `uint16_t` unit.
Assignment to the 10-bit field truncates modulo `2 ^ 10`. -/
def JointProperties.pack (jp : JointProperties) : Nat :=
  jp.parent % 2 ^ kMaxJointsNumBits +
    (if jp.is_leaf then 2 ^ kMaxJointsNumBits else 0)

/-- Reading the two bit-fields back from the 16-bit packed word. -/
def JointProperties.unpack (w : Nat) : JointProperties :=
  { parent := w % 2 ^ kMaxJointsNumBits,
    is_leaf := w / 2 ^ kMaxJointsNumBits % 2 = 1 }

/-! ## The SoA transform value (external `ozz::math::SoaTransform`)

Opaque to this core beyond being a fixed-size value holding one group of
4 joint local transforms; each lane is modelled as an opaque `Nat`
(bit-for-bit equality on lanes is `Nat` equality). -/

/-- One structure-of-arrays transform group: the bind pose of joint `i`
lives in group `i / 4`, lane `i % 4`. -/
structure SoaTransform where
  lane0 : Nat
  lane1 : Nat
  lane2 : Nat
  lane3 : Nat
  deriving DecidableEq, Repr

/-! ## The Skeleton (class `ozz::animation::Skeleton`, lines 53-151)

The three parallel buffers store joint information in DAG order; their
size equals the number of joints of the skeleton.  C++ arrays are
modelled as Lean lists, and the `Range<...>` bounded views returned by
the accessors are modelled as the lists themselves (the view's length
contract is the `Consistent` predicate below). -/

/-- The runtime skeleton: const-only access to joint hierarchy, joint
names and bind pose. -/
structure Skeleton where
  /-- Array of joint properties (`joint_properties_`). -/
  joint_properties_ : List JointProperties
  /-- Bind pose of every joint in local space, in SoA format (`bind_pose_`). -/
  bind_pose_ : List SoaTransform
  /-- Name of every joint (`joint_names_`). -/
  joint_names_ : List String
  /-- The number of joints (`num_joints_`). -/
  num_joints_ : Nat
  deriving DecidableEq, Repr

/-- `Skeleton::num_joints()`: returns the number of joints. -/
def Skeleton.num_joints (s : Skeleton) : Nat := s.num_joints_

/-- `Skeleton::num_soa_joints()`: `return (num_joints_ + 3) / 4;`. -/
def Skeleton.num_soa_joints (s : Skeleton) : Nat := (s.num_joints_ + 3) / 4

/-- `Skeleton::joint_properties()`: the bounded read-only view over the
hierarchy array. -/
def Skeleton.joint_properties (s : Skeleton) : List JointProperties :=
  s.joint_properties_

/-- `Skeleton::bind_pose()`: the bounded read-only view over the bind-pose
groups. -/
def Skeleton.bind_pose (s : Skeleton) : List SoaTransform := s.bind_pose_

/-- `Skeleton::joint_names()`: the index-aligned joint name collection. -/
def Skeleton.joint_names (s : Skeleton) : List String := s.joint_names_

/-- The default-constructed skeleton: zero joints and no buffers. -/
def Skeleton.empty : Skeleton :=
  { joint_properties_ := [], bind_pose_ := [], joint_names_ := [],
    num_joints_ := 0 }

/-- Mutual consistency of `num_joints_` and the three buffers: the
hierarchy and name arrays hold `num_joints_` entries and the bind pose
holds one SoA group per 4 joints. -/
def Skeleton.Consistent (s : Skeleton) : Prop :=
  s.joint_properties_.length = s.num_joints_ ∧
  s.bind_pose_.length = (s.num_joints_ + 3) / 4 ∧
  s.joint_names_.length = s.num_joints_

instance (s : Skeleton) : Decidable s.Consistent := by
  unfold Skeleton.Consistent; infer_instance

/-- Every parent field holds a value representable in its 10-bit field. -/
def Skeleton.ParentsInRange (s : Skeleton) : Prop :=
  ∀ jp ∈ s.joint_properties_, jp.parent < 2 ^ kMaxJointsNumBits

instance (s : Skeleton) : Decidable s.ParentsInRange := by
  unfold Skeleton.ParentsInRange; infer_instance

/-! ## Type identity for the archive framework (skeleton.h lines 154-157) -/

/-- `OZZ_IO_TYPE_VERSION(1, animation::Skeleton)`. -/
def Skeleton.ioTypeVersion : Nat := 1

/-- `OZZ_IO_TYPE_TAG("ozz-skeleton", animation::Skeleton)`. -/
def Skeleton.ioTypeTag : String := "ozz-skeleton"

/-! ## Archive stream model

The archive collaborator (out of scope of the core, see spec section 2)
exposes ordered primitive read/write operations for integers, opaque
fixed-size records and strings; a stream is modelled as the list of
primitives written, in order. -/

/-- One primitive value written to / read from an archive stream. -/
inductive Token where
  /-- An integer. -/
  | tnat (n : Nat)
  /-- One opaque fixed-size SoA transform record. -/
  | ttrans (t : SoaTransform)
  /-- One character string. -/
  | tstr (s : String)
  deriving DecidableEq, Repr

/-- Read one integer from the stream; fails on any other primitive. -/
def readNat : List Token → Option (Nat × List Token)
  | Token.tnat n :: rest => some (n, rest)
  | _ => none

/-- Read `n` integers from the stream. -/
def readNats : Nat → List Token → Option (List Nat × List Token)
  | 0, s => some ([], s)
  | n + 1, s => do
      let (x, s₁) ← readNat s
      let (xs, s₂) ← readNats n s₁
      pure (x :: xs, s₂)

/-- Read one SoA transform record from the stream. -/
def readTrans : List Token → Option (SoaTransform × List Token)
  | Token.ttrans t :: rest => some (t, rest)
  | _ => none

/-- Read `n` SoA transform records from the stream. -/
def readTransList : Nat → List Token → Option (List SoaTransform × List Token)
  | 0, s => some ([], s)
  | n + 1, s => do
      let (x, s₁) ← readTrans s
      let (xs, s₂) ← readTransList n s₁
      pure (x :: xs, s₂)

/-- Read one string from the stream. -/
def readStr : List Token → Option (String × List Token)
  | Token.tstr x :: rest => some (x, rest)
  | _ => none

/-- Read `n` strings from the stream. -/
def readStrs : Nat → List Token → Option (List String × List Token)
  | 0, s => some ([], s)
  | n + 1, s => do
      let (x, s₁) ← readStr s
      let (xs, s₂) ← readStrs n s₁
      pure (x :: xs, s₂)

/-! ## Serialization (`Skeleton::Save` / `Skeleton::Load`)

Only declared in skeleton.h (lines 119-122); the bodies are not under
`src/`, so they are modelled from the spec (section 4.4 "Serialization
contract", section 6 "Persisted layout" and section 7 "Error handling"). -/

/-- Modelled from the spec: `Skeleton::Save` (body not under `src/`).
Writes, in a stable field order, `num_joints`, the full hierarchy array
(one 16-bit packed value per joint), the full bind-pose array (opaque
transform records) and the full name table in joint-index order. -/
def Skeleton.Save (s : Skeleton) : List Token :=
  Token.tnat s.num_joints_ ::
    (s.joint_properties_.map (fun jp => Token.tnat jp.pack) ++
     s.bind_pose_.map Token.ttrans ++
     s.joint_names_.map Token.tstr)

/-- Modelled from the spec: the reading part of `Skeleton::Load`.
Reads the version-1 field set in the order `Save` writes it and
rebuilds a skeleton whose buffers are sized by the joint count read. -/
def loadV1 (stream : List Token) : Option Skeleton := do
  let (n, s₁) ← readNat stream
  let (hs, s₂) ← readNats n s₁
  let (ps, s₃) ← readTransList ((n + 3) / 4) s₂
  let (ns, _) ← readStrs n s₃
  pure { joint_properties_ := hs.map JointProperties.unpack,
         bind_pose_ := ps,
         joint_names_ := ns,
         num_joints_ := n }

/-- Modelled from the spec: `Skeleton::Load` (body not under `src/`).
First releases any data already owned by the target skeleton (a
destructive overwrite, not an additive merge).  A version the core does
not know how to interpret is fatal to the operation and leaves the
destroyed (empty) skeleton; a truncated or malformed stream likewise
rolls back to empty rather than leaving a half-populated object. -/
def Skeleton.Load (_prior : Skeleton) (version : Nat) (stream : List Token) :
    Skeleton :=
  if version ≠ Skeleton.ioTypeVersion then Skeleton.empty
  else
    match loadV1 stream with
    | some s => s
    | none => Skeleton.empty

/-! ## The offline builder (`ozz::animation::offline::SkeletonBuilder`)

Only forward-declared in skeleton.h (line 40); its code is not under
`src/`, so it is modelled from the spec (sections 2, 4.2 and 6): given
an authoring-time hierarchy (an arbitrary forest with unpacked names and
transforms), it assigns joint indices in breadth-first order — every
joint's parent index strictly less than the joint's own index, roots
carrying the `kNoParentIndex` sentinel — computes the cached `is_leaf`
flag, packs the bind pose into SoA groups of 4, and fails if the joint
count exceeds `kMaxJoints`. -/

/-- An authoring-time joint: a name, an opaque local bind-pose transform
(one lane's worth), and the list of child joints. -/
inductive RawJoint where
  | node (name : String) (pose : Nat) (children : List RawJoint)

/-- The name of a raw joint. -/
def RawJoint.name : RawJoint → String
  | .node n _ _ => n

/-- The authoring-time local bind pose of a raw joint. -/
def RawJoint.pose : RawJoint → Nat
  | .node _ p _ => p

/-- The children of a raw joint. -/
def RawJoint.children : RawJoint → List RawJoint
  | .node _ _ c => c

mutual

/-- Number of joints in a raw subtree. -/
def RawJoint.size : RawJoint → Nat
  | .node _ _ c => 1 + sizeList c

/-- Number of joints in a raw forest. -/
def sizeList : List RawJoint → Nat
  | [] => 0
  | j :: js => j.size + sizeList js

end

/-- One joint as produced by the breadth-first sweep: its hierarchy link
fields plus its name and authoring pose, all index-aligned. -/
structure BuiltJoint where
  parent : Nat
  is_leaf : Bool
  name : String
  pose : Nat
  deriving DecidableEq, Repr

/-- Total number of raw joints waiting in a breadth-first work queue. -/
def queueSize (q : List (RawJoint × Nat)) : Nat := sizeList (q.map Prod.fst)

/-- The breadth-first sweep of the builder: dequeues the front joint,
emits its record at the next index (`idx`), and enqueues its children
tagged with `idx` as their parent index.  `fuel` bounds the number of
steps; the builder calls it with `fuel = queueSize` of the initial
queue, which is exact (each step consumes one queued joint). -/
def buildBF (fuel : Nat) (idx : Nat) (q : List (RawJoint × Nat)) :
    List BuiltJoint :=
  match fuel, q with
  | 0, _ => []
  | _ + 1, [] => []
  | fuel + 1, (j, p) :: rest =>
      { parent := p, is_leaf := j.children.isEmpty,
        name := j.name, pose := j.pose } ::
        buildBF fuel (idx + 1) (rest ++ j.children.map (fun c => (c, idx)))

/-- Packs the per-joint authoring poses into SoA groups of 4; unused
lanes in the final group are defined (zero) but semantically unused. -/
def soaPack : List Nat → List SoaTransform
  | [] => []
  | [a] => [{ lane0 := a, lane1 := 0, lane2 := 0, lane3 := 0 }]
  | [a, b] => [{ lane0 := a, lane1 := b, lane2 := 0, lane3 := 0 }]
  | [a, b, c] => [{ lane0 := a, lane1 := b, lane2 := c, lane3 := 0 }]
  | a :: b :: c :: d :: rest =>
      { lane0 := a, lane1 := b, lane2 := c, lane3 := d } :: soaPack rest

/-- The joint records the builder's breadth-first sweep emits for an
authoring forest: the roots enter the queue tagged with the
`kNoParentIndex` sentinel. -/
def builtJoints (roots : List RawJoint) : List BuiltJoint :=
  buildBF (sizeList roots) 0 (roots.map (fun r => (r, kNoParentIndex)))

/-- The populated skeleton assembled from the breadth-first records:
hierarchy links, SoA bind pose and name table, all index-aligned. -/
def builtSkeleton (roots : List RawJoint) : Skeleton :=
  { joint_properties_ :=
      (builtJoints roots).map
        (fun b => { parent := b.parent, is_leaf := b.is_leaf }),
    bind_pose_ := soaPack ((builtJoints roots).map BuiltJoint.pose),
    joint_names_ := (builtJoints roots).map BuiltJoint.name,
    num_joints_ := (builtJoints roots).length }

/-- Modelled from the spec: `offline::SkeletonBuilder` (not under `src/`).
Produces a populated skeleton from an authoring-time forest, or fails if
the joint count exceeds `kMaxJoints`. -/
def SkeletonBuilder.build (roots : List RawJoint) : Option Skeleton :=
  if sizeList roots > kMaxJoints then none
  else some (builtSkeleton roots)

/-! ## The concrete 5-joint scenario (spec section 8)

Five joints in breadth-first order `[root, root, j0-child, j0-child,
j2-child]`, i.e. parent indices `[1023, 1023, 0, 0, 2]`. -/

/-- The authoring forest of the concrete scenario: root `j0` with
children `j2` (itself parent of `j4`) and `j3`, and a second root `j1`. -/
def raw5 : List RawJoint :=
  [.node "j0" 10 [.node "j2" 12 [.node "j4" 14 []], .node "j3" 13 []],
   .node "j1" 11 []]

/-- The skeleton the builder produces for `raw5`. -/
def skel5 : Skeleton := (SkeletonBuilder.build raw5).getD Skeleton.empty

/-! ## Helper lemmas -/

/-- Packing then unpacking the two bit-fields is the identity whenever
the parent index is representable in its 10-bit field. -/
theorem JointProperties.unpack_pack (jp : JointProperties)
    (h : jp.parent < 2 ^ kMaxJointsNumBits) :
    JointProperties.unpack jp.pack = jp := by
  obtain ⟨p, l⟩ := jp
  simp only [kMaxJointsNumBits] at h ⊢
  cases l <;>
    simp [JointProperties.unpack, JointProperties.pack, kMaxJointsNumBits,
      Nat.mod_eq_of_lt h, Nat.add_div_right, Nat.div_eq_of_lt h,
      Nat.mod_eq_of_lt] <;>
    omega

/-- Reading back `n` integers that were just written, in order. -/
theorem readNats_append (xs : List Nat) (rest : List Token) :
    readNats xs.length (xs.map Token.tnat ++ rest) = some (xs, rest) := by
  induction xs with
  | nil => simp [readNats]
  | cons a as ih => simp [readNats, readNat, ih]

/-- Reading back `n` transform records that were just written, in order. -/
theorem readTransList_append (xs : List SoaTransform) (rest : List Token) :
    readTransList xs.length (xs.map Token.ttrans ++ rest) = some (xs, rest) := by
  induction xs with
  | nil => simp [readTransList]
  | cons a as ih => simp [readTransList, readTrans, ih]

/-- Reading back `n` strings that were just written, in order. -/
theorem readStrs_append (xs : List String) (rest : List Token) :
    readStrs xs.length (xs.map Token.tstr ++ rest) = some (xs, rest) := by
  induction xs with
  | nil => simp [readStrs]
  | cons a as ih => simp [readStrs, readStr, ih]

/-- `loadV1` inverts `Save` on any consistent skeleton whose parent
indices fit their 10-bit field. -/
theorem loadV1_save (S : Skeleton) (hc : S.Consistent)
    (hp : S.ParentsInRange) : loadV1 S.Save = some S := by
  obtain ⟨h1, h2, h3⟩ := hc
  unfold loadV1 Skeleton.Save
  simp only [readNat, Option.bind_eq_bind, Option.some_bind]
  have e1 : S.joint_properties_.map (fun jp => Token.tnat jp.pack)
      = (S.joint_properties_.map JointProperties.pack).map Token.tnat := by
    simp [List.map_map, Function.comp]
  rw [e1, List.append_assoc]
  have r1 := readNats_append (S.joint_properties_.map JointProperties.pack)
    (S.bind_pose_.map Token.ttrans ++ S.joint_names_.map Token.tstr)
  rw [List.length_map, h1] at r1
  rw [r1]
  have r2 := readTransList_append S.bind_pose_ (S.joint_names_.map Token.tstr)
  rw [h2] at r2
  simp only [Option.some_bind, r2]
  have r3 := readStrs_append S.joint_names_ []
  rw [h3, List.append_nil] at r3
  simp only [Option.some_bind, r3]
  have e2 : (S.joint_properties_.map JointProperties.pack).map
      JointProperties.unpack = S.joint_properties_ := by
    rw [List.map_map]
    have : ∀ jp ∈ S.joint_properties_,
        (JointProperties.unpack ∘ JointProperties.pack) jp = id jp :=
      fun jp hjp => JointProperties.unpack_pack jp (hp jp hjp)
    rw [List.map_congr_left this, List.map_id]
  simp [e2]

/-- A raw joint covers itself plus its children subtrees. -/
theorem RawJoint.size_eq (j : RawJoint) : j.size = 1 + sizeList j.children := by
  cases j; rfl

/-- `queueSize` of the empty queue. -/
theorem queueSize_nil : queueSize [] = 0 := rfl

/-- `queueSize` of a non-empty queue. -/
theorem queueSize_cons (e : RawJoint × Nat) (q : List (RawJoint × Nat)) :
    queueSize (e :: q) = e.1.size + queueSize q := rfl

/-- `sizeList` distributes over append. -/
theorem sizeList_append (a b : List RawJoint) :
    sizeList (a ++ b) = sizeList a + sizeList b := by
  induction a with
  | nil => simp [sizeList]
  | cons j js ih => simp [sizeList, ih]; omega

/-- `queueSize` distributes over append. -/
theorem queueSize_append (a b : List (RawJoint × Nat)) :
    queueSize (a ++ b) = queueSize a + queueSize b := by
  unfold queueSize
  rw [List.map_append, sizeList_append]

/-- Tagging a forest with a parent index does not change its size. -/
theorem queueSize_map_tag (ch : List RawJoint) (idx : Nat) :
    queueSize (ch.map (fun c => (c, idx))) = sizeList ch := by
  induction ch with
  | nil => rfl
  | cons c cs ih =>
      simp only [List.map_cons, queueSize_cons, sizeList]
      rw [ih]

/-- A queue of total size zero holds no joints. -/
theorem queueSize_eq_zero (q : List (RawJoint × Nat)) (h : queueSize q = 0) :
    q = [] := by
  cases q with
  | nil => rfl
  | cons e rest =>
      rw [queueSize_cons, RawJoint.size_eq] at h
      omega

/-- With sufficient fuel the breadth-first sweep emits exactly one record
per queued joint. -/
theorem buildBF_length (fuel : Nat) : ∀ (idx : Nat)
    (q : List (RawJoint × Nat)), queueSize q ≤ fuel →
    (buildBF fuel idx q).length = queueSize q := by
  induction fuel with
  | zero =>
      intro idx q h
      rw [queueSize_eq_zero q (by omega)]
      rfl
  | succ fuel ih =>
      intro idx q h
      match q with
      | [] => rfl
      | (j, p) :: rest =>
          have hsz : queueSize ((j, p) :: rest)
              = 1 + sizeList j.children + queueSize rest := by
            rw [queueSize_cons, RawJoint.size_eq]
          have hq : queueSize (rest ++ j.children.map (fun c => (c, idx)))
              = queueSize rest + sizeList j.children := by
            rw [queueSize_append, queueSize_map_tag]
          simp only [buildBF, List.length_cons]
          rw [ih (idx + 1) _ (by omega), hq]
          omega

/-- `getD` commutes with `map` when the default is also mapped. -/
theorem listGetD_map {α β : Type} (f : α → β) (l : List α) :
    ∀ (i : Nat) (d : α), (l.map f).getD i (f d) = f (l.getD i d) := by
  induction l with
  | nil => intro i d; rfl
  | cons a as ih =>
      intro i d
      cases i with
      | zero => rfl
      | succ i => simpa using ih i d

/-- Parent indices emitted by the breadth-first sweep: provided every
queued parent tag is the sentinel or an already-assigned index (below
`idx`), every emitted record's parent is the sentinel or strictly below
the record's own joint index. -/
theorem buildBF_parent (fuel : Nat) : ∀ (idx : Nat)
    (q : List (RawJoint × Nat)),
    (∀ e ∈ q, e.2 = kNoParentIndex ∨ e.2 < idx) →
    ∀ i, i < (buildBF fuel idx q).length →
      ((buildBF fuel idx q).getD i ⟨0, false, "", 0⟩).parent = kNoParentIndex ∨
      ((buildBF fuel idx q).getD i ⟨0, false, "", 0⟩).parent < idx + i := by
  induction fuel with
  | zero => intro idx q _ i hi; simp [buildBF] at hi
  | succ fuel ih =>
      intro idx q hq i hi
      match q with
      | [] => simp [buildBF] at hi
      | (j, p) :: rest =>
          simp only [buildBF] at hi ⊢
          cases i with
          | zero =>
              rcases hq (j, p) (List.mem_cons_self _ _) with h | h
              · exact Or.inl h
              · exact Or.inr (by simpa using h)
          | succ i =>
              have hinv : ∀ e ∈ rest ++ j.children.map (fun c => (c, idx)),
                  e.2 = kNoParentIndex ∨ e.2 < idx + 1 := by
                intro e he
                rcases List.mem_append.1 he with h | h
                · rcases hq e (List.mem_cons_of_mem _ h) with h2 | h2
                  · exact Or.inl h2
                  · exact Or.inr (by omega)
                · rcases List.mem_map.1 h with ⟨c, _, rfl⟩
                  exact Or.inr (by omega)
              have := ih (idx + 1) _ hinv i (by simpa using hi)
              rcases this with h | h
              · exact Or.inl h
              · exact Or.inr (by simpa [Nat.add_assoc, Nat.add_comm 1 i]
                  using h)

/-- Counting parents already assigned before the sweep started: the only
records whose parent equals `t < idx` are those whose parent tag was
already `t` in the queue. -/
theorem buildBF_countP_lt (fuel : Nat) : ∀ (idx t : Nat)
    (q : List (RawJoint × Nat)), t < idx → queueSize q ≤ fuel →
    (buildBF fuel idx q).countP (fun r => r.parent == t)
      = q.countP (fun e => e.2 == t) := by
  induction fuel with
  | zero =>
      intro idx t q _ h
      rw [queueSize_eq_zero q (by omega)]
      rfl
  | succ fuel ih =>
      intro idx t q ht h
      match q with
      | [] => rfl
      | (j, p) :: rest =>
          have hsz : queueSize ((j, p) :: rest)
              = 1 + sizeList j.children + queueSize rest := by
            rw [queueSize_cons, RawJoint.size_eq]
          have hq : queueSize (rest ++ j.children.map (fun c => (c, idx)))
              = queueSize rest + sizeList j.children := by
            rw [queueSize_append, queueSize_map_tag]
          simp only [buildBF, List.countP_cons]
          rw [ih (idx + 1) t _ (by omega) (by omega)]
          rw [List.countP_append, List.countP_map]
          have hch : (j.children.countP
              ((fun (e : RawJoint × Nat) => e.2 == t) ∘ fun c => (c, idx)))
              = 0 := by
            apply List.countP_eq_zero.2
            intro c _
            simp only [Function.comp]
            simp
            omega
          rw [hch]
          simp

/-- Leaf flags emitted by the breadth-first sweep: provided every queued
parent tag is the sentinel or an already-assigned index, a record's leaf
flag is set exactly when no emitted record names it as parent. -/
theorem buildBF_leaf (fuel : Nat) : ∀ (idx : Nat)
    (q : List (RawJoint × Nat)), queueSize q ≤ fuel →
    (∀ e ∈ q, e.2 = kNoParentIndex ∨ e.2 < idx) →
    ∀ i, i < (buildBF fuel idx q).length → idx + i < kNoParentIndex →
      (((buildBF fuel idx q).getD i ⟨0, false, "", 0⟩).is_leaf = true ↔
        (buildBF fuel idx q).countP (fun r => r.parent == idx + i) = 0) := by
  induction fuel with
  | zero => intro idx q _ _ i hi; simp [buildBF] at hi
  | succ fuel ih =>
      intro idx q hfuel hq i hi hsent
      match q with
      | [] => simp [buildBF] at hi
      | (j, p) :: rest =>
          have hsz : queueSize ((j, p) :: rest)
              = 1 + sizeList j.children + queueSize rest := by
            rw [queueSize_cons, RawJoint.size_eq]
          have hqsz : queueSize (rest ++ j.children.map (fun c => (c, idx)))
              = queueSize rest + sizeList j.children := by
            rw [queueSize_append, queueSize_map_tag]
          simp only [buildBF] at hi ⊢
          cases i with
          | zero =>
              -- the head record: its leaf flag reflects `j.children`
              simp only [Nat.add_zero] at hsent ⊢
              rw [List.countP_cons]
              have hphead : ¬ (p == idx) = true := by
                rcases hq (j, p) (List.mem_cons_self _ _) with h | h <;>
                  simp only [beq_iff_eq] <;> omega
              rw [buildBF_countP_lt fuel (idx + 1) idx _ (by omega) (by omega)]
              rw [List.countP_append, List.countP_map]
              have hrest : rest.countP (fun e => e.2 == idx) = 0 := by
                apply List.countP_eq_zero.2
                intro e he
                rcases hq e (List.mem_cons_of_mem _ he) with h | h <;>
                  simp only [beq_iff_eq] <;> omega
              have hch : (j.children.countP
                  ((fun (e : RawJoint × Nat) => e.2 == idx) ∘ fun c => (c, idx)))
                  = j.children.length := by
                rw [List.countP_eq_length.2]
                intro c _
                simp [Function.comp]
              rw [hrest, hch]
              simp only [if_neg hphead, List.getD_cons_zero]
              constructor
              · intro hleaf
                have : j.children = [] := by
                  simpa [List.isEmpty_iff] using hleaf
                simp [this]
              · intro hlen
                have : j.children.length = 0 := by omega
                simp [List.isEmpty_iff, List.length_eq_zero.1 this]
          | succ i =>
              have hinv : ∀ e ∈ rest ++ j.children.map (fun c => (c, idx)),
                  e.2 = kNoParentIndex ∨ e.2 < idx + 1 := by
                intro e he
                rcases List.mem_append.1 he with h | h
                · rcases hq e (List.mem_cons_of_mem _ h) with h2 | h2
                  · exact Or.inl h2
                  · exact Or.inr (by omega)
                · rcases List.mem_map.1 h with ⟨c, _, rfl⟩
                  exact Or.inr (by omega)
              have hrec := ih (idx + 1) _ (by omega) hinv i
                (by simpa using hi) (by omega)
              rw [List.countP_cons]
              have hphead : ¬ (p == idx + (i + 1)) = true := by
                rcases hq (j, p) (List.mem_cons_self _ _) with h | h <;>
                  simp only [beq_iff_eq] <;> omega
              rw [if_neg hphead]
              simpa [Nat.add_assoc, Nat.add_comm 1 i] using hrec

/-- Quantifying over positions with `getD` is quantifying over members. -/
theorem forall_getD_iff {α : Type} (l : List α) (d : α) (P : α → Prop) :
    (∀ k, k < l.length → P (l.getD k d)) ↔ ∀ a ∈ l, P a := by
  induction l with
  | nil => simp
  | cons a as ih =>
      constructor
      · intro h b hb
        rcases List.mem_cons.1 hb with rfl | hb
        · exact h 0 (by simp)
        · exact (ih.1 fun k hk => h (k + 1) (by simpa using hk)) b hb
      · intro h k hk
        cases k with
        | zero => exact h a (List.mem_cons_self _ _)
        | succ k =>
            exact ih.2 (fun b hb => h b (List.mem_cons_of_mem _ hb)) k
              (by simpa using hk)

/-! ## Claim theorems -/

/-- C3: for every skeleton with `num_joints` in the valid range
`[0, kMaxJoints]`, `num_soa_joints()` returns exactly `⌈num_joints / 4⌉`;
in particular it returns 0, 1, 1, 1, 2, 256 at `num_joints` = 0, 1, 3,
4, 5, 1023 respectively. -/
theorem num_soa_joints_eq_ceil (S : Skeleton) (h : S.num_joints ≤ kMaxJoints) :
    S.num_soa_joints = S.num_joints ⌈/⌉ 4 ∧
    (S.num_joints = 0 → S.num_soa_joints = 0) ∧
    (S.num_joints = 1 → S.num_soa_joints = 1) ∧
    (S.num_joints = 3 → S.num_soa_joints = 1) ∧
    (S.num_joints = 4 → S.num_soa_joints = 1) ∧
    (S.num_joints = 5 → S.num_soa_joints = 2) ∧
    (S.num_joints = 1023 → S.num_soa_joints = 256) := by
  rw [Nat.ceilDiv_eq_add_pred_div]
  unfold Skeleton.num_soa_joints Skeleton.num_joints at *
  refine ⟨by omega, ?_, ?_, ?_, ?_, ?_, ?_⟩ <;> intro hn <;> rw [hn]

/-- Witness for C3 at the concrete 5-joint skeleton. -/
theorem num_soa_joints_eq_ceil_witness :
    skel5.num_joints ≤ kMaxJoints ∧
      (skel5.num_soa_joints = skel5.num_joints ⌈/⌉ 4 ∧
       (skel5.num_joints = 0 → skel5.num_soa_joints = 0) ∧
       (skel5.num_joints = 1 → skel5.num_soa_joints = 1) ∧
       (skel5.num_joints = 3 → skel5.num_soa_joints = 1) ∧
       (skel5.num_joints = 4 → skel5.num_soa_joints = 1) ∧
       (skel5.num_joints = 5 → skel5.num_soa_joints = 2) ∧
       (skel5.num_joints = 1023 → skel5.num_soa_joints = 256)) :=
  ⟨by decide, num_soa_joints_eq_ceil skel5 (by decide)⟩

/-- C5: a `JointProperties` value packs a parent index occupying exactly
`kMaxJointsNumBits = 10` bits with valid value range `[0, kMaxJoints]`
where `kMaxJoints = 2^10 - 1 = 1023` is the "no parent" sentinel
(`kNoParentIndex = kMaxJoints`), plus a 1-bit leaf flag, in a total
footprint of 16 bits. -/
theorem jointProperties_packing :
    kMaxJointsNumBits = 10 ∧
    kMaxJoints = 2 ^ 10 - 1 ∧ kMaxJoints = 1023 ∧
    kNoParentIndex = kMaxJoints ∧
    (∀ jp : JointProperties, jp.parent ≤ kMaxJoints →
      JointProperties.unpack jp.pack = jp ∧
      jp.pack % 2 ^ kMaxJointsNumBits = jp.parent ∧
      jp.pack / 2 ^ kMaxJointsNumBits = (if jp.is_leaf then 1 else 0) ∧
      jp.pack < 2 ^ 16) := by
  refine ⟨rfl, by decide, by decide, rfl, ?_⟩
  intro jp h
  have hlt : jp.parent < 2 ^ kMaxJointsNumBits := by
    simp only [kMaxJoints, kMaxJointsNumBits] at h ⊢; omega
  refine ⟨JointProperties.unpack_pack jp hlt, ?_, ?_, ?_⟩ <;>
    simp only [JointProperties.pack, kMaxJointsNumBits] at * <;>
    cases jp.is_leaf <;> simp <;> omega

/-- Witness for C5 at the concrete link (parent 5, leaf). -/
theorem jointProperties_packing_witness :
    (JointProperties.mk 5 true).parent ≤ kMaxJoints ∧
      (JointProperties.unpack (JointProperties.mk 5 true).pack
          = JointProperties.mk 5 true ∧
       (JointProperties.mk 5 true).pack % 2 ^ kMaxJointsNumBits = 5 ∧
       (JointProperties.mk 5 true).pack / 2 ^ kMaxJointsNumBits
          = (if (JointProperties.mk 5 true).is_leaf then 1 else 0) ∧
       (JointProperties.mk 5 true).pack < 2 ^ 16) :=
  ⟨by decide, jointProperties_packing.2.2.2.2 (JointProperties.mk 5 true)
    (by decide)⟩

/-- C2: saving a consistent skeleton whose parent indices fit their
10-bit field and loading the saved stream back (at the supported
version) into any prior skeleton reproduces the original skeleton
exactly: same joint count, same hierarchy array, bit-exact bind pose,
same names in joint-index order. -/
theorem save_load_roundtrip (prior S : Skeleton) (hc : S.Consistent)
    (hp : S.ParentsInRange) :
    Skeleton.Load prior Skeleton.ioTypeVersion S.Save = S := by
  unfold Skeleton.Load
  rw [if_neg (by simp), loadV1_save S hc hp]

/-- Witness for C2: round trip of the concrete 5-joint skeleton. -/
theorem save_load_roundtrip_witness :
    skel5.Consistent ∧ skel5.ParentsInRange ∧
      Skeleton.Load Skeleton.empty Skeleton.ioTypeVersion skel5.Save = skel5 :=
  ⟨by decide, by decide,
    save_load_roundtrip Skeleton.empty skel5 (by decide) (by decide)⟩

/-- C6: when `Load` receives a version the core does not know how to
interpret, it fails without partially overwriting the target skeleton,
leaving it in its prior state or empty — and in a state where
`num_joints` and the three buffers are mutually consistent. -/
theorem load_version_mismatch (prior : Skeleton) (v : Nat)
    (stream : List Token) (h : v ≠ Skeleton.ioTypeVersion) :
    (Skeleton.Load prior v stream = prior ∨
     Skeleton.Load prior v stream = Skeleton.empty) ∧
    (Skeleton.Load prior v stream).Consistent := by
  unfold Skeleton.Load
  rw [if_pos h]
  exact ⟨Or.inr rfl, by decide⟩

/-- Witness for C6 at version 2 on the concrete 5-joint skeleton. -/
theorem load_version_mismatch_witness :
    (2 : Nat) ≠ Skeleton.ioTypeVersion ∧
      ((Skeleton.Load skel5 2 [] = skel5 ∨
        Skeleton.Load skel5 2 [] = Skeleton.empty) ∧
       (Skeleton.Load skel5 2 []).Consistent) :=
  ⟨by decide, load_version_mismatch skel5 2 [] (by decide)⟩

/-- C8: loading the same archive stream twice in succession into the
same skeleton object yields the same final state as loading it once:
`Load` destroys the prior content first, so its observable result does
not depend on it. -/
theorem load_idempotent (prior : Skeleton) (v : Nat) (stream : List Token) :
    Skeleton.Load (Skeleton.Load prior v stream) v stream
      = Skeleton.Load prior v stream := rfl

/-- C9: the skeleton's on-disk identity for the archive framework is the
tag `"ozz-skeleton"` with integer version 1, and a loader encountering an
unsupported version fails (producing the empty skeleton) rather than
proceeding. -/
theorem ioTypeIdentity :
    Skeleton.ioTypeTag = "ozz-skeleton" ∧ Skeleton.ioTypeVersion = 1 ∧
    (∀ (prior : Skeleton) (v : Nat) (stream : List Token),
      v ≠ Skeleton.ioTypeVersion →
        Skeleton.Load prior v stream = Skeleton.empty) := by
  refine ⟨rfl, rfl, ?_⟩
  intro prior v stream h
  unfold Skeleton.Load
  rw [if_pos h]

/-- Witness for C9: loading version 7 fails to the empty skeleton. -/
theorem ioTypeIdentity_witness :
    (7 : Nat) ≠ Skeleton.ioTypeVersion ∧
      Skeleton.Load skel5 7 skel5.Save = Skeleton.empty :=
  ⟨by decide, ioTypeIdentity.2.2 skel5 7 skel5.Save (by decide)⟩

/-- C10: the no-parent sentinel never collides with a real joint index:
`kNoParentIndex = kMaxJoints`, every valid joint index of a skeleton
with at most `kMaxJoints` joints is strictly below `kNoParentIndex`, and
every non-sentinel value representable in the 10-bit parent field is a
valid joint index (below `kMaxJoints`). -/
theorem sentinel_no_collision :
    kNoParentIndex = kMaxJoints ∧
    (∀ S : Skeleton, S.num_joints ≤ kMaxJoints →
      ∀ j, j < S.num_joints → j < kNoParentIndex) ∧
    (∀ p, p < 2 ^ kMaxJointsNumBits → p ≠ kNoParentIndex → p < kMaxJoints) := by
  refine ⟨rfl, ?_, ?_⟩
  · intro S h j hj
    simp only [kNoParentIndex, kMaxJoints, kMaxJointsNumBits] at *
    omega
  · intro p h1 h2
    simp only [kNoParentIndex, kMaxJoints, kMaxJointsNumBits] at *
    omega

/-- Witness for C10 at the concrete 5-joint skeleton and value 7. -/
theorem sentinel_no_collision_witness :
    (skel5.num_joints ≤ kMaxJoints ∧ 3 < skel5.num_joints ∧
      (3 : Nat) < kNoParentIndex) ∧
    ((7 : Nat) < 2 ^ kMaxJointsNumBits ∧ (7 : Nat) ≠ kNoParentIndex ∧
      (7 : Nat) < kMaxJoints) :=
  ⟨⟨by decide, by decide,
     sentinel_no_collision.2.1 skel5 (by decide) 3 (by decide)⟩,
   ⟨by decide, by decide,
     sentinel_no_collision.2.2 7 (by decide) (by decide)⟩⟩

/-- C7 counterexample: the skeleton built from the concrete 5-joint
breadth-first scenario does have parent indices `[1023, 1023, 0, 0, 2]`,
but its leaf flags are not `[false, false, false, true, true]` as the
claim states: joint 1 is a childless root, hence a leaf. -/
theorem concrete5_leaf_flags_counterexample :
    skel5.joint_properties.map JointProperties.parent = [1023, 1023, 0, 0, 2] ∧
    skel5.joint_properties.map (fun jp => jp.is_leaf)
      ≠ [false, false, false, true, true] ∧
    (skel5.joint_properties.map (fun jp => jp.is_leaf)).getD 1 false = true := by
  decide

/-- C7 (amended): the concrete 5-joint skeleton with parent indices
`[1023, 1023, 0, 0, 2]` has `num_soa_joints() = 2`, leaf flags
`[false, true, false, true, true]` (joint 1, a childless root, is a
leaf), and a name table of 5 entries retrievable in the same
joint-index order after a save/load cycle. -/
theorem concrete5_scenario :
    skel5.joint_properties.map JointProperties.parent = [1023, 1023, 0, 0, 2] ∧
    skel5.num_soa_joints = 2 ∧
    skel5.joint_properties.map (fun jp => jp.is_leaf)
      = [false, true, false, true, true] ∧
    skel5.joint_names.length = 5 ∧
    (Skeleton.Load Skeleton.empty Skeleton.ioTypeVersion
        skel5.Save).joint_names = skel5.joint_names := by
  decide

/-- C1: in every skeleton the builder populates, joint indices are
assigned in breadth-first order: a joint `j` that is not a root (its
parent link is not the `kNoParentIndex` sentinel) has a parent index
strictly less than `j`; a root carries exactly the sentinel. -/
theorem breadth_first_invariant (roots : List RawJoint) (S : Skeleton)
    (hb : SkeletonBuilder.build roots = some S) :
    ∀ j, j < S.num_joints →
      (S.joint_properties.getD j { parent := 0, is_leaf := false }).parent
          ≠ kNoParentIndex →
      (S.joint_properties.getD j { parent := 0, is_leaf := false }).parent
          < j := by
  unfold SkeletonBuilder.build at hb
  by_cases hsz : sizeList roots > kMaxJoints
  · rw [if_pos hsz] at hb; exact absurd hb (by simp)
  rw [if_neg hsz] at hb
  injection hb with hb
  subst hb
  intro j hj hne
  have hgd : (builtSkeleton roots).joint_properties.getD j
      { parent := 0, is_leaf := false }
      = (fun b : BuiltJoint => JointProperties.mk b.parent b.is_leaf)
          ((builtJoints roots).getD j ⟨0, false, "", 0⟩) :=
    listGetD_map (fun b : BuiltJoint => JointProperties.mk b.parent b.is_leaf)
      (builtJoints roots) j ⟨0, false, "", 0⟩
  rw [hgd] at hne ⊢
  have hinv : ∀ e ∈ roots.map (fun r => (r, kNoParentIndex)),
      e.2 = kNoParentIndex ∨ e.2 < 0 := by
    intro e he
    rcases List.mem_map.1 he with ⟨r, _, rfl⟩
    exact Or.inl rfl
  have := buildBF_parent (sizeList roots) 0
    (roots.map (fun r => (r, kNoParentIndex))) hinv j hj
  rcases this with h | h
  · exact absurd h hne
  · simpa using h

/-- Witness for C1 at joint 4 of the concrete 5-joint skeleton. -/
theorem breadth_first_invariant_witness :
    SkeletonBuilder.build raw5 = some skel5 ∧ 4 < skel5.num_joints ∧
      (skel5.joint_properties.getD 4 { parent := 0, is_leaf := false }).parent
        ≠ kNoParentIndex ∧
      (skel5.joint_properties.getD 4 { parent := 0, is_leaf := false }).parent
        < 4 :=
  ⟨by decide, by decide, by decide,
    breadth_first_invariant raw5 skel5 (by decide) 4 (by decide) (by decide)⟩

/-- C4: in every skeleton the builder populates, a joint's `is_leaf`
flag is set exactly when no joint of the skeleton names it as parent. -/
theorem is_leaf_iff_no_child (roots : List RawJoint) (S : Skeleton)
    (hb : SkeletonBuilder.build roots = some S) :
    ∀ j, j < S.num_joints →
      ((S.joint_properties.getD j { parent := 0, is_leaf := false }).is_leaf
          = true ↔
        ¬ ∃ k, k < S.num_joints ∧
          (S.joint_properties.getD k
            { parent := 0, is_leaf := false }).parent = j) := by
  unfold SkeletonBuilder.build at hb
  by_cases hsz : sizeList roots > kMaxJoints
  · rw [if_pos hsz] at hb; exact absurd hb (by simp)
  rw [if_neg hsz] at hb
  injection hb with hb
  subst hb
  intro j hj
  have hq0 : queueSize (roots.map (fun r => (r, kNoParentIndex)))
      = sizeList roots := queueSize_map_tag roots kNoParentIndex
  have hlen : (builtJoints roots).length = sizeList roots := by
    unfold builtJoints
    rw [buildBF_length (sizeList roots) 0 _ (le_of_eq hq0), hq0]
  have hnum : (builtSkeleton roots).num_joints = (builtJoints roots).length :=
    rfl
  have hinv : ∀ e ∈ roots.map (fun r => (r, kNoParentIndex)),
      e.2 = kNoParentIndex ∨ e.2 < 0 := by
    intro e he
    rcases List.mem_map.1 he with ⟨r, _, rfl⟩
    exact Or.inl rfl
  have hsent : 0 + j < kNoParentIndex := by
    have : j < sizeList roots := by rw [hnum, hlen] at hj; exact hj
    simp only [kNoParentIndex, kMaxJoints, kMaxJointsNumBits] at hsz ⊢
    omega
  have hleaf := buildBF_leaf (sizeList roots) 0
    (roots.map (fun r => (r, kNoParentIndex))) (le_of_eq hq0) hinv j
    (by rw [hnum] at hj; exact hj) hsent
  rw [Nat.zero_add] at hleaf
  have hgd : ∀ k, (builtSkeleton roots).joint_properties.getD k
      { parent := 0, is_leaf := false }
      = (fun b : BuiltJoint => JointProperties.mk b.parent b.is_leaf)
          ((builtJoints roots).getD k ⟨0, false, "", 0⟩) :=
    fun k => listGetD_map
      (fun b : BuiltJoint => JointProperties.mk b.parent b.is_leaf)
      (builtJoints roots) k ⟨0, false, "", 0⟩
  rw [hgd j]
  have hcount : (builtJoints roots).countP (fun r => r.parent == j) = 0 ↔
      ¬ ∃ k, k < (builtSkeleton roots).num_joints ∧
        ((builtSkeleton roots).joint_properties.getD k
          { parent := 0, is_leaf := false }).parent = j := by
    rw [List.countP_eq_zero]
    constructor
    · rintro h ⟨k, hk, hpar⟩
      rw [hgd k] at hpar
      have hmem := (forall_getD_iff (builtJoints roots) ⟨0, false, "", 0⟩
        (fun b => b ∈ builtJoints roots)).2 (fun a ha => ha) k
        (by rw [hnum] at hk; exact hk)
      have := h _ hmem
      simp only [beq_iff_eq] at this
      exact this hpar
    · intro h b hb
      simp only [beq_iff_eq]
      intro hpar
      rcases List.mem_iff_getElem.1 hb with ⟨k, hk, hbk⟩
      refine h ⟨k, by rw [hnum]; exact hk, ?_⟩
      rw [hgd k]
      have : (builtJoints roots).getD k ⟨0, false, "", 0⟩ = b := by
        rw [List.getD_eq_getElem?_getD, List.getElem?_eq_getElem hk, hbk]
        rfl
      rw [this]
      exact hpar
  rw [← hcount]
  exact hleaf

/-- Witness for C4 at joint 1 (a childless root, hence a leaf) of the
concrete 5-joint skeleton. -/
theorem is_leaf_iff_no_child_witness :
    SkeletonBuilder.build raw5 = some skel5 ∧ 1 < skel5.num_joints ∧
      ((skel5.joint_properties.getD 1
          { parent := 0, is_leaf := false }).is_leaf = true ↔
        ¬ ∃ k, k < skel5.num_joints ∧
          (skel5.joint_properties.getD k
            { parent := 0, is_leaf := false }).parent = 1) :=
  ⟨by decide, by decide,
    is_leaf_iff_no_child raw5 skel5 (by decide) 1 (by decide)⟩

end Ozz
